import Mathlib

/-!
Verification of `scripts/generate-version-metadata.py`.

The script queries a git repository (latest tag, the commit a tag points
to, timestamps, a bounded commit log) and writes three artifacts:
`release.json`, `commits.json` and `index.html`.

Embedding conventions:
* Python `str` values are modelled as `List Char` (a Python string is a
  sequence of code points).  `pys` turns a Lean string literal into one.
* The external `git` invocations are modelled by a `GitWorld` record of
  abstract query results; the functions below consume those results
  exactly as the script consumes the corresponding `subprocess` outputs.
* `json.dump(..., indent=2)` is modelled by `dumps`, a faithful
  pretty-printer for the JSON fragment the script produces.
* `sys.exit(1)` / file writes are modelled by `Except` and by the
  explicit list of written files returned by `mainRun`.
-/

/-- Convert a Lean string literal to the `List Char` model of Python strings. -/
def pys (s : String) : List Char := s.data

/-- The NUL delimiter `\x00` used in the git log format string. -/
def nulChar : Char := Char.ofNat 0

/-- Opening brace character. -/
def lbrace : Char := Char.ofNat 123

/-- Closing brace character. -/
def rbrace : Char := Char.ofNat 125

/-- Whitespace predicate of Python `str.strip()` (restricted to the ASCII
whitespace characters; git hashes, refs and subject lines in scope are
ASCII text without the exotic Unicode space classes). -/
def pySpace (c : Char) : Bool :=
  c = ' ' || c = '\t' || c = '\n' || c = '\r' || c = Char.ofNat 11 || c = Char.ofNat 12

/-- Python `s.strip()`: remove leading and trailing whitespace. -/
def pyStrip (l : List Char) : List Char :=
  ((l.dropWhile pySpace).reverse.dropWhile pySpace).reverse

/-- Python `s.split(sep)` for a one-character separator: split on every
occurrence, keeping empty pieces; `"".split(sep) == [""]`. -/
def pySplit (sep : Char) : List Char → List (List Char)
  | [] => [[]]
  | c :: cs =>
    match pySplit sep cs with
    | [] => [[]]
    | h :: t => if c = sep then [] :: h :: t else (c :: h) :: t

mutual

inductive Json where
  | str : List Char → Json
  | arr : JList → Json
  | obj : JObj → Json
deriving DecidableEq

inductive JList where
  | nil : JList
  | cons : Json → JList → JList
deriving DecidableEq

inductive JObj where
  | nil : JObj
  | cons : List Char → Json → JObj → JObj
deriving DecidableEq

end

/-- The keys of a JSON object, in order. -/
def JObj.keys : JObj → List (List Char)
  | .nil => []
  | .cons k _ t => k :: t.keys

/-- Look up a key in a JSON object (first match). -/
def JObj.find : List Char → JObj → Option Json
  | _, .nil => none
  | k, .cons k2 v t => if k = k2 then some v else JObj.find k t

/-- Key lookup on a JSON value (`none` on non-objects). -/
def Json.getKey : Json → List Char → Option Json
  | .obj ps, k => ps.find k
  | .str _, _ => none
  | .arr _, _ => none

/-- The top-level keys of a JSON value (empty for non-objects). -/
def Json.topKeys : Json → List (List Char)
  | .obj ps => ps.keys
  | .str _ => []
  | .arr _ => []

/-- One lowercase hexadecimal digit. -/
def hexDigit (n : Nat) : Char :=
  if n < 10 then Char.ofNat (48 + n) else Char.ofNat (87 + n % 16)

/-- Four lowercase hexadecimal digits, most significant first. -/
def hex4 (n : Nat) : List Char :=
  [hexDigit (n / 4096 % 16), hexDigit (n / 256 % 16), hexDigit (n / 16 % 16), hexDigit (n % 16)]

/-- Escaping of one character inside a JSON string, as Python's
`json.dump` does with its default `ensure_ascii=True`: printable ASCII is
kept, the two-character escapes are used where they exist, everything
else becomes `\uXXXX` (with a surrogate pair above U+FFFF). -/
def escChar (c : Char) : List Char :=
  if c = '"' then ['\\', '"']
  else if c = '\\' then ['\\', '\\']
  else if c = '\n' then ['\\', 'n']
  else if c = '\r' then ['\\', 'r']
  else if c = '\t' then ['\\', 't']
  else if c = Char.ofNat 8 then ['\\', 'b']
  else if c = Char.ofNat 12 then ['\\', 'f']
  else if 32 ≤ c.toNat ∧ c.toNat ≤ 126 then [c]
  else if c.toNat < 65536 then '\\' :: 'u' :: hex4 c.toNat
  else
    '\\' :: 'u' :: hex4 (55296 + (c.toNat - 65536) / 1024) ++
      '\\' :: 'u' :: hex4 (56320 + (c.toNat - 65536) % 1024)

/-- JSON string-body escaping, character by character. -/
def escStr (s : List Char) : List Char :=
  (s.map escChar).flatten

/-- `n` spaces of indentation. -/
def indentSp (n : Nat) : List Char :=
  List.replicate n ' '

mutual

/-- Serialization of a JSON value as Python's `json.dump(v, f, indent=2)`
renders it when the current indentation is `ind` spaces: containers open
a line, items are indented two further spaces, the key separator is
`": "` and the item separator is `",\n"`; empty containers stay on one
line. -/
def dumpAux : Nat → Json → List Char
  | _, .str s => '"' :: escStr s ++ ['"']
  | _, .arr .nil => ['[', ']']
  | ind, .arr (.cons x t) =>
    '[' :: '\n' :: dumpItems (ind + 2) (.cons x t) ++ '\n' :: indentSp ind ++ [']']
  | _, .obj .nil => [lbrace, rbrace]
  | ind, .obj (.cons k v t) =>
    lbrace :: '\n' :: dumpFields (ind + 2) (.cons k v t) ++ '\n' :: indentSp ind ++ [rbrace]

/-- Comma-and-newline separated array items at indentation `ind`. -/
def dumpItems : Nat → JList → List Char
  | _, .nil => []
  | ind, .cons x .nil => indentSp ind ++ dumpAux ind x
  | ind, .cons x (.cons y t) =>
    indentSp ind ++ dumpAux ind x ++ ',' :: '\n' :: dumpItems ind (.cons y t)

/-- Comma-and-newline separated object fields at indentation `ind`. -/
def dumpFields : Nat → JObj → List Char
  | _, .nil => []
  | ind, .cons k v .nil =>
    indentSp ind ++ '"' :: escStr k ++ '"' :: ':' :: ' ' :: dumpAux ind v
  | ind, .cons k v (.cons k2 v2 t) =>
    indentSp ind ++ '"' :: escStr k ++ '"' :: ':' :: ' ' :: dumpAux ind v ++
      ',' :: '\n' :: dumpFields ind (.cons k2 v2 t)

end

/-- `json.dump(v, f, indent=2)`: serialize starting at indentation 0. -/
def dumps (j : Json) : List Char := dumpAux 0 j

/-- One entry of `commits.json`: an abbreviated hash and a subject line. -/
structure CommitEntry where
  sha : List Char
  subject : List Char
deriving DecidableEq

/-- Join pieces with a one-character separator (how `git log
--pretty=format:...` joins per-commit records with newlines, and with no
trailing newline). -/
def joinSep (sep : Char) : List (List Char) → List Char
  | [] => []
  | [l] => l
  | l :: l2 :: ls => l ++ sep :: joinSep sep (l2 :: ls)

/-- Modelled external tool behavior (spec section 4.2): `git log
--pretty=format:%h%x00%s -<count> HEAD` prints, newest first, at most
`count` commits, each as its abbreviated hash and subject separated by a
NUL byte, one commit per line. `history` is the full reachable history,
newest first. -/
def gitLog (history : List CommitEntry) (count : Nat) : List Char :=
  joinSep '\n' ((history.take count).map fun e => e.sha ++ nulChar :: e.subject)

/-- The body of the parsing loop in `generate_commits_json`: a line
containing the NUL delimiter is split on its first occurrence by
`line.split("\x00", 1)` into `(sha, subject)`; a line without the
delimiter yields nothing. -/
def parseLine (line : List Char) : Option CommitEntry :=
  if nulChar ∈ line then
    some ⟨line.takeWhile (· ≠ nulChar), (line.dropWhile (· ≠ nulChar)).drop 1⟩
  else none

/-- The `commits` list built by `generate_commits_json` from the raw log
output: `output.strip().split("\n")`, keeping for each line the split
produced by the loop body. -/
def parseCommits (output : List Char) : List CommitEntry :=
  (pySplit '\n' (pyStrip output)).filterMap parseLine

/-- The JSON array `[{"sha": ..., "subject": ...}, ...]` written to
`commits.json` (keys in the insertion order of the Python dict literal). -/
def commitsToJson : List CommitEntry → JList
  | [] => .nil
  | e :: t =>
    .cons (.obj (.cons (pys "sha") (.str e.sha)
      (.cons (pys "subject") (.str e.subject) .nil))) (commitsToJson t)

/-- `generate_commits_json`, from the raw log output to the file content
`json.dump(commits, f, indent=2)`. -/
def generate_commits_json (raw : List Char) : List Char :=
  dumps (.arr (commitsToJson (parseCommits raw)))

/-- The derived `version`: `latest_tag[1:] if latest_tag.startswith("v")
else latest_tag`. -/
def deriveVersion (tag : List Char) : List Char :=
  if (pys "v").isPrefixOf tag then tag.drop 1 else tag

/-- The common literal part of the download f-strings before the tag. -/
def dlBase : List Char := pys "https://github.com/tgruben-circuit/percy/releases/download/"

/-- The `download_urls` dict literal of `generate_release_json`, keys in
insertion order, each value an f-string around `latest_tag`. -/
def download_urls (tag : List Char) : JObj :=
  .cons (pys "darwin_amd64") (.str (dlBase ++ tag ++ pys "/percy_darwin_amd64"))
  (.cons (pys "darwin_arm64") (.str (dlBase ++ tag ++ pys "/percy_darwin_arm64"))
  (.cons (pys "linux_amd64") (.str (dlBase ++ tag ++ pys "/percy_linux_amd64"))
  (.cons (pys "linux_arm64") (.str (dlBase ++ tag ++ pys "/percy_linux_arm64")) .nil)))

/-- The `checksums_url` f-string of `generate_release_json`. -/
def checksums_url (tag : List Char) : List Char :=
  dlBase ++ tag ++ pys "/checksums.txt"

/-- The `release_info` dict literal of `generate_release_json`, keys in
insertion order.  `short` and `full` are `latest_commit_short` and
`latest_commit`; the version is derived from the tag just above the
dict. -/
def release_info (tag short full ctime pub : List Char) : Json :=
  .obj (.cons (pys "tag_name") (.str tag)
       (.cons (pys "version") (.str (deriveVersion tag))
       (.cons (pys "commit") (.str short)
       (.cons (pys "commit_full") (.str full)
       (.cons (pys "commit_time") (.str ctime)
       (.cons (pys "published_at") (.str pub)
       (.cons (pys "download_urls") (.obj (download_urls tag))
       (.cons (pys "checksums_url") (.str (checksums_url tag)) .nil))))))))

/-- The ambient repository state, as the results of the script's git
queries. `describeTags` is the stdout of `git describe --tags
--abbrev=0`, `none` when that command exits nonzero (no tag exists);
`revList tag` is the stdout of `git rev-list -n 1 <tag>`; `commitTime c`
of `git show -s --format=%cI <c>`; `creatordate tag` of `git
for-each-ref --format=%(creatordate:iso-strict) refs/tags/<tag>`;
`logOut n` of `git log --pretty=format:%h%x00%s -<n> HEAD`. -/
structure GitWorld where
  describeTags : Option (List Char)
  revList : List Char → List Char
  commitTime : List Char → List Char
  creatordate : List Char → List Char
  logOut : Nat → List Char

/-- The diagnostic printed to stderr when no tag exists. -/
def errNoTags : List Char :=
  pys "ERROR: No tags found. Run this after creating a release."

/-- The record `generate_release_json` builds, following the script line
by line: strip the tag, resolve and strip the commit, abbreviate it to 7
characters, strip the two timestamps; `none` models the `sys.exit(1)`
path taken when the describe query failed. -/
def releaseRecord (w : GitWorld) : Option Json :=
  match w.describeTags with
  | none => none
  | some out =>
    let latest_tag := pyStrip out
    let latest_commit := pyStrip (w.revList latest_tag)
    let latest_commit_short := latest_commit.take 7
    let latest_commit_time := pyStrip (w.commitTime latest_commit)
    let published_at := pyStrip (w.creatordate latest_tag)
    some (release_info latest_tag latest_commit_short latest_commit
      latest_commit_time published_at)

/-- `generate_release_json`: either the diagnostic of the fatal exit, or
the content written to `release.json` (`json.dump(release_info, f,
indent=2)`). -/
def generate_release_json (w : GitWorld) : Except (List Char) (List Char) :=
  match releaseRecord w with
  | none => .error errNoTags
  | some j => .ok (dumps j)

/-- The fixed content of `index.html`. -/
def indexHtml : List Char :=
  pys "<!DOCTYPE html>\n<html>\n<head><title>Percy</title></head>\n<body>\n<p><a href=\"https://github.com/tgruben-circuit/percy\">github.com/tgruben-circuit/percy</a></p>\n<ul>\n<li><a href=\"release.json\">release.json</a></li>\n<li><a href=\"commits.json\">commits.json</a></li>\n</ul>\n</body>\n</html>\n"

/-- Observable outcome of one run of the tool: the exit status, the
files written (name and content, in order), and what was printed to
standard error. -/
structure RunResult where
  exitCode : Nat
  files : List (List Char × List Char)
  errOutput : List Char
deriving DecidableEq

/-- `main`: run 4.1 → 4.2 → 4.3 in order.  When the release step exits
fatally nothing is written, the diagnostic goes to stderr (with the
newline `print` appends) and the process exits with status 1; otherwise
the three files are written and the process exits with status 0. -/
def mainRun (w : GitWorld) : RunResult :=
  match generate_release_json w with
  | .error msg => ⟨1, [], msg ++ ['\n']⟩
  | .ok rel =>
    ⟨0, [(pys "release.json", rel),
         (pys "commits.json", generate_commits_json (w.logOut 500)),
         (pys "index.html", indexHtml)], []⟩

/-- Well-formedness of a history entry as git produces it: a nonempty
abbreviated hash of non-whitespace, non-NUL characters, and a subject
with no newline and no trailing whitespace. -/
def wfEntry (e : CommitEntry) : Bool :=
  !e.sha.isEmpty &&
  e.sha.all (fun c => !pySpace c && c ≠ nulChar) &&
  e.subject.all (fun c => c ≠ '\n') &&
  (e.subject.getLast?).all (fun c => !pySpace c)

/-- Modelled from the spec (P4): the fixed download template of the
release-asset path with the tag name substituted, used to compare the
code's f-strings against the spec's wording. -/
def specUrl (tag asset : List Char) : List Char :=
  pys "https://github.com/tgruben-circuit/percy/releases/download/" ++ tag ++ '/' :: asset

/-- A concrete two-commit history used to instantiate theorems. -/
def sampleHistory : List CommitEntry :=
  [⟨pys "abc1234", pys "second commit"⟩, ⟨pys "def5678", pys "first commit"⟩]

/-- A repository state with no tags: the describe query fails. -/
def wNoTags : GitWorld :=
  { describeTags := none
    revList := fun _ => []
    commitTime := fun _ => []
    creatordate := fun _ => []
    logOut := fun _ => [] }

/-- A concrete healthy repository state used to instantiate theorems. -/
def wSample : GitWorld :=
  { describeTags := some (pys "v1.0.0\n")
    revList := fun _ => pys "0123456789abcdef0123456789abcdef01234567\n"
    commitTime := fun _ => pys "2024-01-01T00:00:00+00:00\n"
    creatordate := fun _ => pys "2024-01-02T00:00:00+00:00\n"
    logOut := fun n => gitLog sampleHistory n }

/-! ### Helper lemmas about splitting, stripping and joining -/

theorem pySplit_ne_nil (sep : Char) (l : List Char) : pySplit sep l ≠ [] := by
  induction l with
  | nil => simp [pySplit]
  | cons c cs ih =>
    simp only [pySplit]
    rcases h : pySplit sep cs with _ | ⟨x, t⟩
    · simp
    · by_cases hc : c = sep <;> simp [hc]

theorem pySplit_not_mem {sep : Char} {l : List Char} (h : sep ∉ l) :
    pySplit sep l = [l] := by
  induction l with
  | nil => rfl
  | cons c cs ih =>
    have hc : c ≠ sep := fun hc => h (hc ▸ List.mem_cons_self c cs)
    have hcs : sep ∉ cs := fun hm => h (List.mem_cons_of_mem _ hm)
    simp only [pySplit, ih hcs, hc, if_false]

theorem pySplit_append {sep : Char} {l : List Char} (r : List Char) (h : sep ∉ l) :
    pySplit sep (l ++ sep :: r) = l :: pySplit sep r := by
  induction l with
  | nil =>
    simp only [List.nil_append, pySplit]
    rcases hr : pySplit sep r with _ | ⟨x, t⟩
    · exact absurd hr (pySplit_ne_nil sep r)
    · simp
  | cons c cs ih =>
    have hc : c ≠ sep := fun hc => h (hc ▸ List.mem_cons_self c cs)
    have hcs : sep ∉ cs := fun hm => h (List.mem_cons_of_mem _ hm)
    simp only [List.cons_append, pySplit, List.append_eq, ih hcs, hc, if_false]

theorem pySplit_joinSep {sep : Char} :
    ∀ {lines : List (List Char)}, lines ≠ [] → (∀ x ∈ lines, sep ∉ x) →
      pySplit sep (joinSep sep lines) = lines
  | [], h, _ => absurd rfl h
  | [l], _, hmem => by
    simp only [joinSep]
    exact pySplit_not_mem (hmem l (List.mem_singleton_self l))
  | l :: l2 :: ls, _, hmem => by
    have h1 : sep ∉ l := hmem l (List.mem_cons_self _ _)
    have ih := @pySplit_joinSep sep (l2 :: ls) (List.cons_ne_nil _ _)
      (fun x hx => hmem x (List.mem_cons_of_mem _ hx))
    simp only [joinSep, pySplit_append _ h1, ih]

theorem dropWhile_eq_self_of {p : Char → Bool} {l : List Char}
    (h : l.head?.all (fun c => !p c) = true) : l.dropWhile p = l := by
  cases l with
  | nil => rfl
  | cons c cs =>
    simp only [List.head?_cons, Option.all_some, Bool.not_eq_true'] at h
    simp [List.dropWhile_cons, h]

theorem pyStrip_eq_self {l : List Char}
    (h1 : l.head?.all (fun c => !pySpace c) = true)
    (h2 : l.getLast?.all (fun c => !pySpace c) = true) : pyStrip l = l := by
  unfold pyStrip
  rw [dropWhile_eq_self_of h1]
  rw [dropWhile_eq_self_of (by rwa [List.head?_reverse])]
  exact List.reverse_reverse l

theorem joinSep_cons_ne_nil (sep : Char) (x : List Char) :
    ∀ (t : List (List Char)), x ≠ [] → joinSep sep (x :: t) ≠ []
  | [], hx => by simpa [joinSep] using hx
  | y :: t, _ => by simp [joinSep]

theorem joinSep_head?_all {sep : Char} {p : Char → Bool} {x : List Char}
    {rest : List (List Char)} (hx : x ≠ [])
    (h : x.head?.all p = true) :
    ((joinSep sep (x :: rest)).head?.all p) = true := by
  cases rest with
  | nil => simpa [joinSep] using h
  | cons y t =>
    cases x with
    | nil => exact absurd rfl hx
    | cons c cs => simpa [joinSep] using h

theorem joinSep_getLast?_all {sep : Char} {p : Char → Bool} :
    ∀ {lines : List (List Char)}, lines ≠ [] →
      (∀ x ∈ lines, x ≠ [] ∧ x.getLast?.all p = true) →
      ((joinSep sep lines).getLast?.all p) = true
  | [], h, _ => absurd rfl h
  | [x], _, hmem => by
    simpa [joinSep] using (hmem x (List.mem_singleton_self x)).2
  | x :: y :: t, _, hmem => by
    have hy : y ≠ [] := (hmem y (List.mem_cons_of_mem _ (List.mem_cons_self _ _))).1
    have ihyp := @joinSep_getLast?_all sep p (y :: t) (List.cons_ne_nil _ _) (fun z hz => hmem z (List.mem_cons_of_mem _ hz))
    have hne : joinSep sep (y :: t) ≠ [] := joinSep_cons_ne_nil sep y t hy
    rcases hJ : joinSep sep (y :: t) with _ | ⟨d, ds⟩
    · exact absurd hJ hne
    · rw [hJ] at ihyp
      simp only [joinSep, hJ]
      simpa [List.getLast?_append] using ihyp

/-- The per-commit record printed by the log format: hash, NUL, subject. -/
def lineOf (e : CommitEntry) : List Char := e.sha ++ nulChar :: e.subject

theorem gitLog_def (history : List CommitEntry) (count : Nat) :
    gitLog history count = joinSep '\n' ((history.take count).map lineOf) := rfl

theorem wf_facts {e : CommitEntry} (h : wfEntry e = true) :
    e.sha ≠ [] ∧ (∀ c ∈ e.sha, pySpace c = false ∧ c ≠ nulChar) ∧
    (∀ c ∈ e.subject, c ≠ '\n') ∧
    (e.subject.getLast?.all fun c => !pySpace c) = true := by
  simp only [wfEntry, Bool.and_eq_true, List.all_eq_true, Bool.not_eq_true',
    List.isEmpty_eq_false, decide_eq_true_eq] at h
  obtain ⟨⟨⟨h1, h2⟩, h3⟩, h4⟩ := h
  exact ⟨h1, fun c hc => ⟨(h2 c hc).1, (h2 c hc).2⟩, h3, h4⟩

theorem lineOf_ne_nil (e : CommitEntry) : lineOf e ≠ [] := by
  simp [lineOf]

theorem newline_not_mem_lineOf {e : CommitEntry} (h : wfEntry e = true) :
    '\n' ∉ lineOf e := by
  obtain ⟨-, hsha, hsubj, -⟩ := wf_facts h
  intro hmem
  simp only [lineOf, List.mem_append, List.mem_cons] at hmem
  rcases hmem with hs | hn | hs
  · exact absurd (hsha _ hs).1 (by decide)
  · exact absurd hn (by decide)
  · exact absurd rfl (hsubj _ hs)

theorem lineOf_head_all {e : CommitEntry} (h : wfEntry e = true) :
    ((lineOf e).head?.all fun c => !pySpace c) = true := by
  obtain ⟨hne, hsha, -, -⟩ := wf_facts h
  rcases hs : e.sha with _ | ⟨c, cs⟩
  · exact absurd hs hne
  · have := (hsha c (hs ▸ List.mem_cons_self c cs)).1
    simp [lineOf, hs, this]

theorem lineOf_getLast_all {e : CommitEntry} (h : wfEntry e = true) :
    ((lineOf e).getLast?.all fun c => !pySpace c) = true := by
  obtain ⟨-, -, -, hlast⟩ := wf_facts h
  unfold lineOf
  rw [List.getLast?_append]
  rcases hs : e.subject with _ | ⟨c, cs⟩
  · simp only [List.getLast?_singleton, Option.or_some]
    decide
  · rw [List.getLast?_cons_cons]
    rw [hs] at hlast
    rcases hg : (c :: cs).getLast? with _ | d
    · simp at hg
    · rw [hg] at hlast
      simp [hg, hlast]

theorem takeWhile_append_cons {p : Char → Bool} {a : List Char} {b : Char}
    (r : List Char) (ha : ∀ c ∈ a, p c = true) (hb : p b = false) :
    (a ++ b :: r).takeWhile p = a := by
  induction a with
  | nil => simp [List.takeWhile_cons, hb]
  | cons c cs ih =>
    have hc := ha c (List.mem_cons_self _ _)
    simp [List.takeWhile_cons, hc, ih (fun d hd => ha d (List.mem_cons_of_mem _ hd))]

theorem dropWhile_append_cons {p : Char → Bool} {a : List Char} {b : Char}
    (r : List Char) (ha : ∀ c ∈ a, p c = true) (hb : p b = false) :
    (a ++ b :: r).dropWhile p = b :: r := by
  induction a with
  | nil => simp [List.dropWhile_cons, hb]
  | cons c cs ih =>
    have hc := ha c (List.mem_cons_self _ _)
    simp [List.dropWhile_cons, hc, ih (fun d hd => ha d (List.mem_cons_of_mem _ hd))]

theorem parseLine_lineOf {e : CommitEntry} (h : nulChar ∉ e.sha) :
    parseLine (lineOf e) = some e := by
  unfold parseLine lineOf
  have hmem : nulChar ∈ e.sha ++ nulChar :: e.subject :=
    List.mem_append_right _ (List.mem_cons_self _ _)
  rw [if_pos hmem]
  have ha : ∀ c ∈ e.sha, decide (c ≠ nulChar) = true := by
    intro c hc
    simp only [decide_eq_true_eq]
    exact fun hr => h (hr ▸ hc)
  have ht := takeWhile_append_cons (p := fun c => decide (c ≠ nulChar))
    (b := nulChar) (e.subject) ha (by simp)
  have hd := dropWhile_append_cons (p := fun c => decide (c ≠ nulChar))
    (b := nulChar) (e.subject) ha (by simp)
  simp only [ht, hd, List.drop_one, List.tail_cons]

theorem filterMap_parseLine_lineOf :
    ∀ {l : List CommitEntry}, (∀ e ∈ l, nulChar ∉ e.sha) →
      (l.map lineOf).filterMap parseLine = l
  | [], _ => rfl
  | e :: t, h => by
    have he := parseLine_lineOf (h e (List.mem_cons_self _ _))
    have ih := filterMap_parseLine_lineOf
      (l := t) (fun x hx => h x (List.mem_cons_of_mem _ hx))
    simp only [List.map_cons, List.filterMap_cons, he, ih]

/-- Parsing the modelled log output of any well-formed history recovers
exactly the first `count` entries, in log order. -/
theorem parseCommits_gitLog {history : List CommitEntry} (count : Nat)
    (hwf : ∀ e ∈ history, wfEntry e = true) :
    parseCommits (gitLog history count) = history.take count := by
  have hwf' : ∀ e ∈ history.take count, wfEntry e = true :=
    fun e he => hwf e (List.take_subset _ _ he)
  rw [gitLog_def, parseCommits]
  rcases hl : history.take count with _ | ⟨e, es⟩
  · decide
  · rw [hl] at hwf'
    have hnl : ∀ x ∈ (e :: es).map lineOf, '\n' ∉ x := by
      intro x hx
      obtain ⟨y, hy, rfl⟩ := List.mem_map.mp hx
      exact newline_not_mem_lineOf (hwf' y hy)
    have hstrip : pyStrip (joinSep '\n' ((e :: es).map lineOf)) =
        joinSep '\n' ((e :: es).map lineOf) := by
      refine pyStrip_eq_self ?_ ?_
      · exact joinSep_head?_all (lineOf_ne_nil e) (lineOf_head_all (hwf' e (List.mem_cons_self _ _)))
      · refine joinSep_getLast?_all (by simp) ?_
        intro x hx
        obtain ⟨y, hy, rfl⟩ := List.mem_map.mp hx
        exact ⟨lineOf_ne_nil y, lineOf_getLast_all (hwf' y hy)⟩
    rw [hstrip, pySplit_joinSep (by simp) hnl]
    exact filterMap_parseLine_lineOf fun x hx =>
      fun hm => absurd ((wf_facts (hwf' x hx)).2.1 nulChar hm).2 (by simp)

/-! ### Version derivation -/

theorem deriveVersion_v_cons (c : Char) (rest : List Char) :
    deriveVersion ('v' :: c :: rest) = c :: rest := by
  simp [deriveVersion, pys, List.isPrefixOf]

theorem deriveVersion_not_v {tag : List Char} (h : tag.head? ≠ some 'v') :
    deriveVersion tag = tag := by
  unfold deriveVersion
  cases tag with
  | nil => simp [pys, List.isPrefixOf]
  | cons a as =>
    simp only [List.head?_cons, ne_eq, Option.some.injEq] at h
    have : ('v' == a) = false := by
      simp only [beq_eq_false_iff_ne, ne_eq]
      exact fun hv => h hv.symm
    simp [pys, List.isPrefixOf, this]

/-- C1: for any tag name starting with a literal `v` followed by at least
one character, the `version` field of the release record equals the tag
name with that one leading character removed; for any tag name not
starting with `v`, the `version` field equals the tag name unchanged. -/
theorem claim_C1 (c : Char) (rest tag short full ctime pub : List Char)
    (hv : tag.head? ≠ some 'v') :
    (release_info ('v' :: c :: rest) short full ctime pub).getKey (pys "version")
        = some (.str (c :: rest))
    ∧ (release_info tag short full ctime pub).getKey (pys "version")
        = some (.str tag) := by
  constructor
  · simp +decide [release_info, Json.getKey, JObj.find, deriveVersion_v_cons]
  · simp +decide [release_info, Json.getKey, JObj.find, deriveVersion_not_v hv]

/-- Witness for C1 at tag `v1.2.3` (stripped to `1.2.3`) and tag
`release-7` (unchanged). -/
theorem claim_C1_witness :
    (release_info ('v' :: '1' :: pys ".2.3") (pys "") (pys "") (pys "") (pys "")).getKey
        (pys "version") = some (.str ('1' :: pys ".2.3"))
    ∧ (release_info (pys "release-7") (pys "") (pys "") (pys "") (pys "")).getKey
        (pys "version") = some (.str (pys "release-7")) :=
  claim_C1 '1' (pys ".2.3") (pys "release-7") (pys "") (pys "") (pys "") (pys "")
    (by decide)

/-- C10: for the tag name consisting of exactly the single character `v`,
the derived version is the empty string: the leading `v` is stripped
whenever present, with no requirement that a character follow it. -/
theorem claim_C10 :
    deriveVersion (pys "v") = pys ""
    ∧ (release_info (pys "v") (pys "") (pys "") (pys "") (pys "")).getKey (pys "version")
        = some (.str (pys "")) := by
  constructor
  · decide
  · decide

/-- C2: when the latest-tag query fails (no tag exists), the run exits
with status 1, prints the diagnostic to standard error, writes no file
at all (in particular no `release.json`), and the commit-history and
landing-page steps never run. -/
theorem claim_C2 (w : GitWorld) (h : w.describeTags = none) :
    mainRun w = ⟨1, [], errNoTags ++ ['\n']⟩ := by
  simp [mainRun, generate_release_json, releaseRecord, h]

/-- Witness for C2 on a concrete repository state with no tags. -/
theorem claim_C2_witness :
    mainRun wNoTags = ⟨1, [], errNoTags ++ ['\n']⟩ :=
  claim_C2 wNoTags rfl

/-- C3: for a well-formed history of more than 500 commits (at the
default count 500) the parsed commit list has exactly 500 entries; for a
history of K < 500 commits it has exactly K entries; in both cases it is
`history.take 500`, i.e. newest-first in log order. -/
theorem claim_C3 (history : List CommitEntry)
    (hwf : ∀ e ∈ history, wfEntry e = true) :
    parseCommits (gitLog history 500) = history.take 500
    ∧ (500 < history.length → (parseCommits (gitLog history 500)).length = 500)
    ∧ (history.length < 500 → (parseCommits (gitLog history 500)).length = history.length) := by
  have h := parseCommits_gitLog 500 hwf
  refine ⟨h, fun hl => ?_, fun hl => ?_⟩ <;> rw [h, List.length_take] <;> omega

/-- Witness for C3 on a concrete two-commit history. -/
theorem claim_C3_witness :
    parseCommits (gitLog sampleHistory 500) = sampleHistory.take 500
    ∧ (500 < sampleHistory.length → (parseCommits (gitLog sampleHistory 500)).length = 500)
    ∧ (sampleHistory.length < 500 →
        (parseCommits (gitLog sampleHistory 500)).length = sampleHistory.length) :=
  claim_C3 sampleHistory (by decide)

/-- C5: a log line is split on the first NUL into (hash, subject), so a
subject containing further NUL bytes is kept whole; a line without the
delimiter is silently skipped (yields nothing); and the commit list is
exactly the lines of the stripped output filtered through that loop
body. -/
theorem claim_C5 (sha subj line : List Char)
    (h1 : nulChar ∉ sha) (h2 : nulChar ∉ line) :
    parseLine (sha ++ nulChar :: subj) = some ⟨sha, subj⟩
    ∧ parseLine line = none
    ∧ ∀ out, parseCommits out = (pySplit '\n' (pyStrip out)).filterMap parseLine := by
  refine ⟨parseLine_lineOf (e := ⟨sha, subj⟩) h1, ?_, fun _ => rfl⟩
  simp [parseLine, h2]

/-- Witness for C5: the subject itself contains a NUL and is kept whole;
a delimiter-free line contributes nothing. -/
theorem claim_C5_witness :
    parseLine (pys "abc1234" ++ nulChar :: (pys "keeps " ++ nulChar :: pys "nul"))
        = some ⟨pys "abc1234", pys "keeps " ++ nulChar :: pys "nul"⟩
    ∧ parseLine (pys "no delimiter here") = none
    ∧ ∀ out, parseCommits out = (pySplit '\n' (pyStrip out)).filterMap parseLine :=
  claim_C5 (pys "abc1234") (pys "keeps " ++ nulChar :: pys "nul")
    (pys "no delimiter here") (by decide) (by decide)

/-- C6: an empty history yields empty log output, an empty commit list,
and the literal `[]` as the content of `commits.json` — no error. -/
theorem claim_C6 (count : Nat) :
    gitLog [] count = []
    ∧ parseCommits [] = []
    ∧ generate_commits_json (gitLog [] count) = pys "[]" := by
  have h : gitLog [] count = [] := by simp [gitLog, joinSep]
  refine ⟨h, by decide, ?_⟩
  rw [h]
  decide

/-- C4: for every tag name, the four download URLs and the checksum URL
are exactly the fixed templates with the tag substituted, and at tag
`v2.0.0` they are the exact literal strings of P4. -/
theorem claim_C4 (tag short full ctime pub : List Char) :
    (release_info tag short full ctime pub).getKey (pys "download_urls")
        = some (.obj (download_urls tag))
    ∧ (download_urls tag).find (pys "darwin_amd64")
        = some (.str (specUrl tag (pys "percy_darwin_amd64")))
    ∧ (download_urls tag).find (pys "darwin_arm64")
        = some (.str (specUrl tag (pys "percy_darwin_arm64")))
    ∧ (download_urls tag).find (pys "linux_amd64")
        = some (.str (specUrl tag (pys "percy_linux_amd64")))
    ∧ (download_urls tag).find (pys "linux_arm64")
        = some (.str (specUrl tag (pys "percy_linux_arm64")))
    ∧ (release_info tag short full ctime pub).getKey (pys "checksums_url")
        = some (.str (specUrl tag (pys "checksums.txt")))
    ∧ (download_urls (pys "v2.0.0")).find (pys "linux_amd64")
        = some (.str (pys "https://github.com/tgruben-circuit/percy/releases/download/v2.0.0/percy_linux_amd64"))
    ∧ (download_urls (pys "v2.0.0")).find (pys "darwin_amd64")
        = some (.str (pys "https://github.com/tgruben-circuit/percy/releases/download/v2.0.0/percy_darwin_amd64"))
    ∧ (download_urls (pys "v2.0.0")).find (pys "darwin_arm64")
        = some (.str (pys "https://github.com/tgruben-circuit/percy/releases/download/v2.0.0/percy_darwin_arm64"))
    ∧ (download_urls (pys "v2.0.0")).find (pys "linux_arm64")
        = some (.str (pys "https://github.com/tgruben-circuit/percy/releases/download/v2.0.0/percy_linux_arm64"))
    ∧ checksums_url (pys "v2.0.0")
        = pys "https://github.com/tgruben-circuit/percy/releases/download/v2.0.0/checksums.txt" := by
  refine ⟨?_, ?_, ?_, ?_, ?_, ?_, by decide, by decide, by decide, by decide, by decide⟩
  · simp +decide [release_info, Json.getKey, JObj.find]
  all_goals
    simp +decide [download_urls, release_info, Json.getKey, JObj.find,
      specUrl, checksums_url, dlBase]

set_option maxRecDepth 100000 in
/-- C7: the release record has exactly the eight keys in the fixed
order, its `download_urls` sub-object exactly the four platform keys in
order, and the serialization is the 2-space-indented rendering (shown
exactly on a concrete record). -/
theorem claim_C7 (tag short full ctime pub : List Char) :
    (release_info tag short full ctime pub).topKeys
        = [pys "tag_name", pys "version", pys "commit", pys "commit_full",
           pys "commit_time", pys "published_at", pys "download_urls",
           pys "checksums_url"]
    ∧ (download_urls tag).keys
        = [pys "darwin_amd64", pys "darwin_arm64", pys "linux_amd64",
           pys "linux_arm64"]
    ∧ dumps (release_info (pys "v1.0.0") (pys "abcdef0") (pys "abcdef0123456789")
          (pys "2024-01-01T00:00:00+00:00") (pys "2024-01-02T00:00:00+00:00"))
        = pys "\x7b\n  \"tag_name\": \"v1.0.0\",\n  \"version\": \"1.0.0\",\n  \"commit\": \"abcdef0\",\n  \"commit_full\": \"abcdef0123456789\",\n  \"commit_time\": \"2024-01-01T00:00:00+00:00\",\n  \"published_at\": \"2024-01-02T00:00:00+00:00\",\n  \"download_urls\": \x7b\n    \"darwin_amd64\": \"https://github.com/tgruben-circuit/percy/releases/download/v1.0.0/percy_darwin_amd64\",\n    \"darwin_arm64\": \"https://github.com/tgruben-circuit/percy/releases/download/v1.0.0/percy_darwin_arm64\",\n    \"linux_amd64\": \"https://github.com/tgruben-circuit/percy/releases/download/v1.0.0/percy_linux_amd64\",\n    \"linux_arm64\": \"https://github.com/tgruben-circuit/percy/releases/download/v1.0.0/percy_linux_arm64\"\n  \x7d,\n  \"checksums_url\": \"https://github.com/tgruben-circuit/percy/releases/download/v1.0.0/checksums.txt\"\n\x7d" := by
  exact ⟨rfl, rfl, by decide⟩

/-- C8: against identical query results the tool produces identical
`release.json` and `commits.json` contents, and the JSON key ordering is
a fixed function of nothing (the same lists for every input). -/
theorem claim_C8 (w1 w2 : GitWorld) (h : w1 = w2) :
    generate_release_json w1 = generate_release_json w2
    ∧ generate_commits_json (w1.logOut 500) = generate_commits_json (w2.logOut 500)
    ∧ mainRun w1 = mainRun w2
    ∧ ∀ tag short full ctime pub : List Char,
        (release_info tag short full ctime pub).topKeys
            = [pys "tag_name", pys "version", pys "commit", pys "commit_full",
               pys "commit_time", pys "published_at", pys "download_urls",
               pys "checksums_url"]
        ∧ (download_urls tag).keys
            = [pys "darwin_amd64", pys "darwin_arm64", pys "linux_amd64",
               pys "linux_arm64"] := by
  subst h
  exact ⟨rfl, rfl, rfl, fun _ _ _ _ _ => ⟨rfl, rfl⟩⟩

/-- Witness for C8 on a concrete repository state. -/
theorem claim_C8_witness :
    generate_release_json wSample = generate_release_json wSample
    ∧ generate_commits_json (wSample.logOut 500)
        = generate_commits_json (wSample.logOut 500)
    ∧ mainRun wSample = mainRun wSample
    ∧ ∀ tag short full ctime pub : List Char,
        (release_info tag short full ctime pub).topKeys
            = [pys "tag_name", pys "version", pys "commit", pys "commit_full",
               pys "commit_time", pys "published_at", pys "download_urls",
               pys "checksums_url"]
        ∧ (download_urls tag).keys
            = [pys "darwin_amd64", pys "darwin_arm64", pys "linux_amd64",
               pys "linux_arm64"] :=
  claim_C8 wSample wSample rfl

/-- C9: in the release record the `commit` field is the 7-character
truncation of the `commit_full` field (exactly the first 7 characters
whenever the full hash has at least 7). -/
theorem claim_C9 (w : GitWorld) (out full : List Char)
    (hd : w.describeTags = some out)
    (hfull : pyStrip (w.revList (pyStrip out)) = full)
    (hlen : 7 ≤ full.length) :
    ∃ j, releaseRecord w = some j
      ∧ j.getKey (pys "commit") = some (.str (full.take 7))
      ∧ j.getKey (pys "commit_full") = some (.str full)
      ∧ (full.take 7).length = 7
      ∧ full.take 7 ++ full.drop 7 = full := by
  subst hfull
  refine ⟨release_info (pyStrip out) ((pyStrip (w.revList (pyStrip out))).take 7)
    (pyStrip (w.revList (pyStrip out)))
    (pyStrip (w.commitTime (pyStrip (w.revList (pyStrip out)))))
    (pyStrip (w.creatordate (pyStrip out))), ?_, ?_, ?_, ?_,
    List.take_append_drop _ _⟩
  · simp [releaseRecord, hd]
  · simp +decide [release_info, Json.getKey, JObj.find]
  · simp +decide [release_info, Json.getKey, JObj.find]
  · rw [List.length_take]
    omega

/-- Witness for C9 on a concrete repository state with a 40-character
full hash. -/
theorem claim_C9_witness :
    ∃ j, releaseRecord wSample = some j
      ∧ j.getKey (pys "commit")
          = some (.str ((pys "0123456789abcdef0123456789abcdef01234567").take 7))
      ∧ j.getKey (pys "commit_full")
          = some (.str (pys "0123456789abcdef0123456789abcdef01234567"))
      ∧ ((pys "0123456789abcdef0123456789abcdef01234567").take 7).length = 7
      ∧ (pys "0123456789abcdef0123456789abcdef01234567").take 7
          ++ (pys "0123456789abcdef0123456789abcdef01234567").drop 7
          = pys "0123456789abcdef0123456789abcdef01234567" :=
  claim_C9 wSample (pys "v1.0.0\n")
    (pys "0123456789abcdef0123456789abcdef01234567") rfl (by decide) (by decide)
